import Mathlib

/-!
Shallow embedding of `robotools/liquidhandling/__init__.py`: the `Labware`
class (well addressing, volume ledger, bounds-checked `add`/`remove`,
history log), plus a small heap model that makes numpy-array/dict object
identity explicit for the aliasing properties.

Volumes are modelled as integers: the code applies only addition,
subtraction and order comparisons to volumes, so all the properties in
this file are insensitive to the choice of ordered numeric domain, and
the integers keep every concrete scenario kernel-evaluable.
Python/numpy failures (`AssertionError`,
`KeyError`, numpy's `ValueError` on array truthiness, and the two domain
errors) are an explicit error type; the domain errors carry the offending
well id and the operation label, as the formatted messages in the source do.

The source references `self.current` (in `__init__` and `log`) whose
definition is not part of the given file; it is modelled from the spec
as a full defensive copy of the current ledger.
-/

/-- A 2-D numpy float array, as a row-major list of rows. -/
abbrev Grid := List (List ℤ)

/-- Read a cell; out-of-range reads default to 0 (never reached on
well-formed labware, whose index maps only hold in-range coordinates). -/
def getCell (g : Grid) (rc : Nat × Nat) : ℤ := (g.getD rc.1 []).getD rc.2 0

/-- Write a cell in place; out-of-range writes are no-ops. -/
def setCell (g : Grid) (rc : Nat × Nat) (x : ℤ) : Grid :=
  g.set rc.1 ((g.getD rc.1 []).set rc.2 x)

/-- Models `self._volumes[rc] += v` on a single cell. -/
def bump (g : Grid) (rc : Nat × Nat) (v : ℤ) : Grid :=
  setCell g rc (getCell g rc + v)

/-- Errors surfaced by the Python code. -/
inductive LHError where
  | volumeOverflowError (label : Option String) (well : String)
  | volumeUnderflowError (label : Option String) (well : String)
  | keyError (well : String)
  | assertionError (msg : String)
  | valueError (msg : String)
deriving DecidableEq

/-- The duck-typed `initial_volumes` argument of the constructor:
absent (`None`), a scalar, or a numpy array (grid). -/
inductive InitialVolumes where
  | none
  | scalar (v : ℤ)
  | grid (g : Grid)
deriving DecidableEq

/-- The duck-typed `volumes` argument of `add`/`remove`:
a scalar or a numpy array of per-well volumes. -/
inductive VolumesArg where
  | scalar (v : ℤ)
  | array (vs : List ℤ)
deriving DecidableEq

/-- numpy's message for `bool()` of a multi-element array. -/
def truthMsg : String :=
  "The truth value of an array with more than one element is ambiguous. Use a.any() or a.all()"

/-- Python truthiness of `initial_volumes`, as evaluated by
`if not initial_volumes:`.  `None` and scalar `0` are falsy; a numpy
array of exactly one element has the truthiness of that element, and a
multi-element array raises `ValueError`.  (A zero-element array is falsy,
with a `DeprecationWarning`, in the numpy versions this code targets.) -/
def arrayTruthiness : InitialVolumes → Except LHError Bool
  | .none => .ok false
  | .scalar v => .ok (v ≠ 0)
  | .grid g =>
    let n := (g.map List.length).sum
    if n = 1 then .ok (g.flatten.getD 0 0 ≠ 0)
    else if n = 0 then .ok false
    else .error (.valueError truthMsg)

/-- The shape test `g.shape == (rows, columns)` for a 2-D array. -/
def gridShapeIs (g : Grid) (rows columns : Nat) : Prop :=
  g.length = rows ∧ ∀ row ∈ g, row.length = columns

instance (g : Grid) (rows columns : Nat) : Decidable (gridShapeIs g rows columns) := by
  unfold gridShapeIs; infer_instance

/-- The 26 upper-case row letters, `'ABCDEFGHIJKLMNOPQRSTUVWXYZ'`. -/
def alphabet : List Char :=
  ['A', 'B', 'C', 'D', 'E', 'F', 'G', 'H', 'I', 'J', 'K', 'L', 'M',
   'N', 'O', 'P', 'Q', 'R', 'S', 'T', 'U', 'V', 'W', 'X', 'Y', 'Z']

def rowLetter (r : Nat) : Char := alphabet.getD r 'A'

/-- One decimal digit as a character. -/
def decDigit (d : Nat) : Char :=
  match d with
  | 0 => '0' | 1 => '1' | 2 => '2' | 3 => '3' | 4 => '4'
  | 5 => '5' | 6 => '6' | 7 => '7' | 8 => '8' | _ => '9'

/-- Decimal digits, most significant first; structural recursion on a
fuel argument so that the kernel can evaluate it. -/
def decReprAux : Nat → Nat → List Char
  | 0, _ => []
  | f + 1, n => if n < 10 then [decDigit n] else decReprAux f (n / 10) ++ [decDigit (n % 10)]

/-- Decimal digits of `n`, most significant first. -/
def decRepr (n : Nat) : List Char := decReprAux (n + 1) n

theorem decReprAux_fuel (n : Nat) : ∀ f, n < f → decReprAux f n = decReprAux (n + 1) n := by
  induction n using Nat.strong_induction_on with
  | _ n ih =>
    intro f hf
    match f, hf with
    | f' + 1, hf =>
      show decReprAux (f' + 1) n = decReprAux (n + 1) n
      simp only [decReprAux]
      by_cases h10 : n < 10
      · simp [h10]
      · have hdiv : n / 10 < n := Nat.div_lt_self (by omega) (by omega)
        have h1 : decReprAux f' (n / 10) = decReprAux (n / 10 + 1) (n / 10) :=
          ih (n / 10) hdiv f' (by omega)
        have h2 : decReprAux n (n / 10) = decReprAux (n / 10 + 1) (n / 10) :=
          ih (n / 10) hdiv n hdiv
        simp [h10, h1, h2]

/-- The recursive unfolding of `decRepr`. -/
theorem decRepr_eq (n : Nat) :
    decRepr n = if n < 10 then [decDigit n] else decRepr (n / 10) ++ [decDigit (n % 10)] := by
  show decReprAux (n + 1) n = _
  simp only [decReprAux]
  by_cases h10 : n < 10
  · simp [h10]
  · have hdiv : n / 10 < n := Nat.div_lt_self (by omega) (by omega)
    rw [decReprAux_fuel (n / 10) n hdiv]
    simp [h10, decRepr]

/-- Python's `%02d`/`{:02d}` formatting: decimal, zero-padded to width 2. -/
def pad2 (n : Nat) : List Char :=
  if n < 10 then '0' :: decRepr n else decRepr n

/-- The well id `f'{row}{column:02d}'` for a row letter and a 1-based
column number. -/
def wellId (row : Char) (column : Nat) : String :=
  String.mk (row :: pad2 column)

/-- The `Labware` class state.  Field names follow the Python attributes;
`rows`/`columns` are constructor parameters only and are not stored. -/
structure Labware where
  name : String
  row_ids : List Char
  column_ids : List Nat
  min_volume : ℤ
  max_volume : ℤ
  wellsArr : List (List String)
  indicesDict : List (String × Nat × Nat)
  positionsDict : List (String × Nat)
  volumesArr : Grid
  historyArr : List Grid
  labelsArr : List (Option String)
deriving DecidableEq

/-- The attribute-building tail of `Labware.__init__`, run after the
`initial_volumes` parameter has been exploded to the grid `iv1` and the
shape `assert` has passed: `row_ids`/`column_ids`, the well-id array, the
two dictionaries generated from `enumerate(row_ids)`/`enumerate(column_ids)`,
the ledger (`initial_volumes.copy()`), and the seeded history
(`[self.current]` with label `'initial'`). -/
def Labware.assemble (name : String) (rows columns : Nat) (min_volume max_volume : ℤ)
    (iv1 : Grid) : Labware :=
  let row_ids := alphabet.take rows
  let column_ids := List.range' 1 columns
  let rowN := row_ids.length
  let colN := column_ids.length
  { name := name
    row_ids := row_ids
    column_ids := column_ids
    min_volume := min_volume
    max_volume := max_volume
    wellsArr := row_ids.map fun row => column_ids.map fun column => wellId row column
    indicesDict := (List.range rowN).flatMap fun r => (List.range colN).map fun c =>
      (wellId (row_ids.getD r 'A') (column_ids.getD c 0), (r, c))
    positionsDict := (List.range rowN).flatMap fun r => (List.range colN).map fun c =>
      (wellId (row_ids.getD r 'A') (column_ids.getD c 0), 1 + c * rows + r)
    volumesArr := iv1
    historyArr := [iv1]
    labelsArr := [some "initial"] }

/-- The explosion of the (possibly falsy-replaced) `initial_volumes` to a
full grid: a scalar is broadcast by `numpy.full((rows, columns), v)`, an
array is kept.  (`None` is unreachable here: it is falsy, so the caller
has already replaced it by the scalar `0`.) -/
def explodeVolumes (rows columns : Nat) (iv : InitialVolumes) (t : Bool) : Grid :=
  match (if t then iv else .scalar 0) with
  | .scalar v => List.replicate rows (List.replicate columns v)
  | .grid g => g
  | .none => []

/-- Model of `Labware.__init__`.  The guard chain is modelled line by line:
the truthiness test (`if not initial_volumes:`), the scalar broadcast
(`numpy.isscalar` / `numpy.full`), and the shape `assert` (which has no
message in the source). -/
def Labware.init (name : String) (rows columns : Nat) (min_volume max_volume : ℤ)
    (initial_volumes : InitialVolumes) : Except LHError Labware :=
  match arrayTruthiness initial_volumes with
  | .error e => .error e
  | .ok t =>
    let iv1 := explodeVolumes rows columns initial_volumes t
    -- assert initial_volumes.shape == (rows, columns)
    if gridShapeIs iv1 rows columns then
      .ok (Labware.assemble name rows columns min_volume max_volume iv1)
    else .error (.assertionError "")

/-- The `history` property: `list(zip(self._labels, self._history))`. -/
def Labware.history (lw : Labware) : List (Option String × Grid) :=
  lw.labelsArr.zip lw.historyArr

/-- The `volumes` property (a defensive copy; copy and value coincide in
the functional model — object identity lives in the heap model below). -/
def Labware.volumes (lw : Labware) : Grid := lw.volumesArr

/-- The flattened row-major listing of the `wells` array. -/
def Labware.wellIds (lw : Labware) : List String := lw.wellsArr.flatten

/-- Model of `Labware.log`: appends `self.current` (a snapshot of the
ledger) and the label to the history. -/
def Labware.log (lw : Labware) (label : Option String) : Labware :=
  { lw with historyArr := lw.historyArr ++ [lw.volumesArr],
            labelsArr := lw.labelsArr ++ [label] }

/-- Result of `add`/`remove`: Python exceptions leave the object in its
(possibly partially) mutated state, so the error case carries the state. -/
inductive OpResult where
  | ok (lw : Labware)
  | err (e : LHError) (lw : Labware)
deriving DecidableEq

/-- Normalisation of the `volumes` argument: a scalar is repeated to the
number of wells (`numpy.repeat`), an array is used as-is. -/
def normVolumes (n : Nat) : VolumesArg → List ℤ
  | .scalar v => List.replicate n v
  | .array vs => vs

/-- The per-pair loop of `add`: for each `(well, volume)` in order, look
the well up in the indices dict (`KeyError` if absent), add the volume in
place, and fail on the spot if the cell now exceeds `max_volume`.  The
error case carries the partially updated grid. -/
def applyAdds (idx : List (String × Nat × Nat)) (maxV : ℤ) (label : Option String) :
    Grid → List (String × ℤ) → Except (LHError × Grid) Grid
  | g, [] => .ok g
  | g, (w, v) :: rest =>
    match List.lookup w idx with
    | none => .error (.keyError w, g)
    | some rc =>
      let g1 := bump g rc v
      if maxV < getCell g1 rc then .error (.volumeOverflowError label w, g1)
      else applyAdds idx maxV label g1 rest

/-- The per-pair loop of `remove`, subtracting and checking `min_volume`. -/
def applyRemoves (idx : List (String × Nat × Nat)) (minV : ℤ) (label : Option String) :
    Grid → List (String × ℤ) → Except (LHError × Grid) Grid
  | g, [] => .ok g
  | g, (w, v) :: rest =>
    match List.lookup w idx with
    | none => .error (.keyError w, g)
    | some rc =>
      let g1 := setCell g rc (getCell g rc - v)
      if getCell g1 rc < minV then .error (.volumeUnderflowError label w, g1)
      else applyRemoves idx minV label g1 rest

/-- Model of `Labware.add`: normalise the volumes, run the two `assert`s
in source order, apply the pairs in order, and on success
`self.log(label)`. -/
def Labware.add (lw : Labware) (wells : List String) (volumes : VolumesArg)
    (label : Option String) : OpResult :=
  let vols := normVolumes wells.length volumes
  if vols.length = wells.length then
    if ∀ v ∈ vols, 0 ≤ v then
      match applyAdds lw.indicesDict lw.max_volume label lw.volumesArr (wells.zip vols) with
      | .error (e, g1) => .err e { lw with volumesArr := g1 }
      | .ok g1 => .ok (({ lw with volumesArr := g1 }).log label)
    else .err (.assertionError "Volumes must be positive or zero.") lw
  else .err (.assertionError "Number of volumes must number of wells") lw

/-- Model of `Labware.remove`: symmetric to `add` (the source tests
scalarness via `hasattr(volumes, '__iter__')`, which normalises the same
two shapes). -/
def Labware.remove (lw : Labware) (wells : List String) (volumes : VolumesArg)
    (label : Option String) : OpResult :=
  let vols := normVolumes wells.length volumes
  if vols.length = wells.length then
    if ∀ v ∈ vols, 0 ≤ v then
      match applyRemoves lw.indicesDict lw.min_volume label lw.volumesArr (wells.zip vols) with
      | .error (e, g1) => .err e { lw with volumesArr := g1 }
      | .ok g1 => .ok (({ lw with volumesArr := g1 }).log label)
    else .err (.assertionError "Volumes must be positive or zero.") lw
  else .err (.assertionError "Number of volumes must number of wells") lw

instance {ε α : Type} [DecidableEq ε] [DecidableEq α] : DecidableEq (Except ε α) := fun
  | .ok a, .ok b =>
    if h : a = b then .isTrue (by rw [h]) else .isFalse (by intro hh; cases hh; exact h rfl)
  | .ok _, .error _ => .isFalse (by intro h; cases h)
  | .error _, .ok _ => .isFalse (by intro h; cases h)
  | .error e, .error f =>
    if h : e = f then .isTrue (by rw [h]) else .isFalse (by intro hh; cases hh; exact h rfl)

/-! Cell-level algebra of the ledger -/

theorem getD_set_self {α : Type} (l : List α) (i : Nat) (x d : α) (h : i < l.length) :
    (l.set i x).getD i d = x := by
  simp [List.getD_eq_getElem?_getD, List.getElem?_set_self h]

theorem getD_set_ne {α : Type} (l : List α) {i j : Nat} (x d : α) (h : i ≠ j) :
    (l.set i x).getD j d = l.getD j d := by
  simp [List.getD_eq_getElem?_getD, List.getElem?_set_ne h]

theorem getD_of_le {α : Type} (l : List α) {i : Nat} (d : α) (h : l.length ≤ i) :
    l.getD i d = d := by
  simp [List.getD_eq_getElem?_getD, List.getElem?_eq_none h]

theorem set_getD_self {α : Type} : ∀ (l : List α) (i : Nat) (d : α), i < l.length →
    l.set i (l.getD i d) = l
  | _ :: _, 0, _, _ => by simp
  | a :: t, i + 1, d, h => by
    simp only [List.getD_cons_succ, List.set_cons_succ]
    exact congrArg (a :: ·) (set_getD_self t i d (by simpa using h))
  | [], _, _, h => by simp at h

/-- Writes in a row beyond the grid are no-ops. -/
theorem setCell_oob_row (g : Grid) (rc : Nat × Nat) (x : ℤ) (h : g.length ≤ rc.1) :
    setCell g rc x = g :=
  List.set_eq_of_length_le h

/-- Writes in a column beyond the addressed row are no-ops. -/
theorem setCell_oob_col (g : Grid) (rc : Nat × Nat) (x : ℤ)
    (h : (g.getD rc.1 []).length ≤ rc.2) : setCell g rc x = g := by
  unfold setCell
  rw [List.set_eq_of_length_le h]
  by_cases hr : rc.1 < g.length
  · exact set_getD_self g rc.1 [] hr
  · exact List.set_eq_of_length_le (by omega)

theorem getCell_setCell_self (g : Grid) (rc : Nat × Nat) (x : ℤ)
    (h1 : rc.1 < g.length) (h2 : rc.2 < (g.getD rc.1 []).length) :
    getCell (setCell g rc x) rc = x := by
  unfold getCell setCell
  rw [getD_set_self g rc.1 _ [] h1, getD_set_self _ rc.2 x 0 (by simpa using h2)]

theorem getCell_setCell_ne (g : Grid) {rc1 rc2 : Nat × Nat} (x : ℤ) (h : rc1 ≠ rc2) :
    getCell (setCell g rc1 x) rc2 = getCell g rc2 := by
  obtain ⟨r1, c1⟩ := rc1
  obtain ⟨r2, c2⟩ := rc2
  by_cases hr : r1 = r2
  · subst hr
    have hc : c1 ≠ c2 := fun hc => h (by rw [hc])
    by_cases hl : r1 < g.length
    · unfold getCell setCell
      rw [getD_set_self g r1 _ [] hl]
      simp only
      rw [getD_set_ne _ _ _ hc]
    · unfold getCell setCell
      rw [List.set_eq_of_length_le (by omega)]
  · unfold getCell setCell
    simp only
    rw [getD_set_ne _ _ _ hr]

theorem setCell_setCell_same (g : Grid) (rc : Nat × Nat) (x y : ℤ) :
    setCell (setCell g rc x) rc y = setCell g rc y := by
  by_cases h1 : rc.1 < g.length
  · unfold setCell
    rw [getD_set_self g rc.1 _ [] h1, List.set_set, List.set_set]
  · rw [setCell_oob_row g rc x (by omega), setCell_oob_row g rc y (by omega)]

theorem setCell_getCell_self (g : Grid) (rc : Nat × Nat) :
    setCell g rc (getCell g rc) = g := by
  by_cases h1 : rc.1 < g.length
  · by_cases h2 : rc.2 < (g.getD rc.1 []).length
    · unfold setCell getCell
      rw [set_getD_self _ rc.2 0 h2, set_getD_self g rc.1 [] h1]
    · exact setCell_oob_col g rc _ (by omega)
  · exact setCell_oob_row g rc _ (by omega)

theorem bump_bump_same (g : Grid) (rc : Nat × Nat) (a b : ℤ) :
    bump (bump g rc a) rc b = bump g rc (a + b) := by
  by_cases h1 : rc.1 < g.length
  · by_cases h2 : rc.2 < (g.getD rc.1 []).length
    · unfold bump
      rw [getCell_setCell_self g rc _ h1 h2, setCell_setCell_same, add_assoc]
    · have e1 : bump g rc a = g := setCell_oob_col g rc _ (by omega)
      have e2 : bump g rc b = g := setCell_oob_col g rc _ (by omega)
      have e3 : bump g rc (a + b) = g := setCell_oob_col g rc _ (by omega)
      rw [e1, e2, e3]
  · have e1 : bump g rc a = g := setCell_oob_row g rc _ (by omega)
    have e2 : bump g rc b = g := setCell_oob_row g rc _ (by omega)
    have e3 : bump g rc (a + b) = g := setCell_oob_row g rc _ (by omega)
    rw [e1, e2, e3]

theorem bump_zero (g : Grid) (rc : Nat × Nat) : bump g rc 0 = g := by
  unfold bump
  rw [add_zero, setCell_getCell_self]

theorem bump_comm (g : Grid) (rc1 rc2 : Nat × Nat) (a b : ℤ) :
    bump (bump g rc1 a) rc2 b = bump (bump g rc2 b) rc1 a := by
  by_cases heq : rc1 = rc2
  · subst heq
    rw [bump_bump_same, bump_bump_same, add_comm]
  · obtain ⟨r1, c1⟩ := rc1
    obtain ⟨r2, c2⟩ := rc2
    by_cases hr : r1 = r2
    · -- same row, different columns
      subst hr
      have hc : c1 ≠ c2 := fun hcc => heq (by rw [hcc])
      by_cases hl : r1 < g.length
      · unfold bump
        rw [getCell_setCell_ne g _ heq, getCell_setCell_ne g _ (Ne.symm heq)]
        unfold setCell
        simp only
        rw [getD_set_self g r1 _ [] hl, getD_set_self g r1 _ [] hl,
          List.set_set, List.set_set, List.set_comm _ _ _ hc]
      · have e1 : bump g (r1, c1) a = g := setCell_oob_row g _ _ (by omega)
        have e2 : bump g (r1, c2) b = g := setCell_oob_row g _ _ (by omega)
        rw [e1, e2, e1]
    · -- different rows
      have hne12 : ((r1, c1) : Nat × Nat) ≠ (r2, c2) := fun h => hr (congrArg Prod.fst h)
      have hne21 : ((r2, c2) : Nat × Nat) ≠ (r1, c1) := fun h => hr (congrArg Prod.fst h).symm
      unfold bump
      rw [getCell_setCell_ne g _ hne12, getCell_setCell_ne g _ hne21]
      unfold setCell
      simp only
      rw [getD_set_ne _ _ _ hr, getD_set_ne _ _ _ (Ne.symm hr), List.set_comm _ _ _ hr]

/-! The mutation loops, unconditionally applied -/

/-- The cumulative effect of the `add` loop, ignoring the bound check.
An unresolvable well (which aborts the real loop with `KeyError`) is
skipped; the lemmas below only use this function at resolvable prefixes. -/
def applyAddsU (idx : List (String × Nat × Nat)) : Grid → List (String × ℤ) → Grid
  | g, [] => g
  | g, (w, v) :: rest =>
    match List.lookup w idx with
    | none => applyAddsU idx g rest
    | some rc => applyAddsU idx (bump g rc v) rest

/-- The cumulative effect of the `remove` loop, ignoring the bound check. -/
def applyRemovesU (idx : List (String × Nat × Nat)) : Grid → List (String × ℤ) → Grid
  | g, [] => g
  | g, (w, v) :: rest =>
    match List.lookup w idx with
    | none => applyRemovesU idx g rest
    | some rc => applyRemovesU idx (bump g rc (-v)) rest

theorem applyAddsU_bump (idx : List (String × Nat × Nat)) (rc : Nat × Nat) (x : ℤ) :
    ∀ (pairs : List (String × ℤ)) (g : Grid),
      applyAddsU idx (bump g rc x) pairs = bump (applyAddsU idx g pairs) rc x := by
  intro pairs
  induction pairs with
  | nil => intro g; rfl
  | cons p rest ih =>
    intro g
    obtain ⟨w, v⟩ := p
    unfold applyAddsU
    match List.lookup w idx with
    | none => exact ih g
    | some rc' =>
      simp only
      rw [bump_comm g rc rc' x v, ih (bump g rc' v)]

theorem applyRemovesU_bump (idx : List (String × Nat × Nat)) (rc : Nat × Nat) (x : ℤ) :
    ∀ (pairs : List (String × ℤ)) (g : Grid),
      applyRemovesU idx (bump g rc x) pairs = bump (applyRemovesU idx g pairs) rc x := by
  intro pairs
  induction pairs with
  | nil => intro g; rfl
  | cons p rest ih =>
    intro g
    obtain ⟨w, v⟩ := p
    unfold applyRemovesU
    match List.lookup w idx with
    | none => exact ih g
    | some rc' =>
      simp only
      rw [bump_comm g rc rc' x (-v), ih (bump g rc' (-v))]

/-- Removing what was just added (same wells, same volumes, same order)
restores the ledger. -/
theorem applyRemovesU_applyAddsU (idx : List (String × Nat × Nat)) :
    ∀ (pairs : List (String × ℤ)) (g : Grid),
      applyRemovesU idx (applyAddsU idx g pairs) pairs = g := by
  intro pairs
  induction pairs with
  | nil => intro g; rfl
  | cons p rest ih =>
    intro g
    obtain ⟨w, v⟩ := p
    unfold applyAddsU applyRemovesU
    match List.lookup w idx with
    | none => exact ih g
    | some rc =>
      simp only
      rw [applyAddsU_bump idx rc v rest g, applyRemovesU_bump idx rc (-v) rest,
        applyRemovesU_bump idx rc v rest, bump_bump_same, add_neg_cancel, bump_zero, ih g]

/-! Success and first-failure characterisations of the loops -/

theorem applyAdds_ok (idx : List (String × Nat × Nat)) (maxV : ℤ) (label : Option String) :
    ∀ (pairs : List (String × ℤ)) (g g' : Grid),
      applyAdds idx maxV label g pairs = .ok g' → g' = applyAddsU idx g pairs := by
  intro pairs
  induction pairs with
  | nil => intro g g' h; cases h; rfl
  | cons p rest ih =>
    intro g g' h
    obtain ⟨w, v⟩ := p
    unfold applyAdds at h
    unfold applyAddsU
    match hl : List.lookup w idx with
    | none => rw [hl] at h; cases h
    | some rc =>
      rw [hl] at h
      simp only at h ⊢
      by_cases hover : maxV < getCell (bump g rc v) rc
      · rw [if_pos hover] at h; cases h
      · rw [if_neg hover] at h
        exact ih (bump g rc v) g' h

theorem applyRemoves_ok (idx : List (String × Nat × Nat)) (minV : ℤ) (label : Option String) :
    ∀ (pairs : List (String × ℤ)) (g g' : Grid),
      applyRemoves idx minV label g pairs = .ok g' → g' = applyRemovesU idx g pairs := by
  intro pairs
  induction pairs with
  | nil => intro g g' h; cases h; rfl
  | cons p rest ih =>
    intro g g' h
    obtain ⟨w, v⟩ := p
    unfold applyRemoves at h
    unfold applyRemovesU
    match hl : List.lookup w idx with
    | none => rw [hl] at h; cases h
    | some rc =>
      rw [hl] at h
      simp only at h ⊢
      by_cases hunder : getCell (setCell g rc (getCell g rc - v)) rc < minV
      · rw [if_pos hunder] at h; cases h
      · rw [if_neg hunder] at h
        have hsub : setCell g rc (getCell g rc - v) = bump g rc (-v) := by
          unfold bump; rw [sub_eq_add_neg]
        rw [hsub] at h
        exact ih (bump g rc (-v)) g' h

/-- Does the `k`-th pair of the batch trip the overflow check, given the
state the ledger is in after the first `k + 1` additions? -/
def overAt (idx : List (String × Nat × Nat)) (maxV : ℤ) (g : Grid)
    (pairs : List (String × ℤ)) (k : Nat) : Bool :=
  match pairs.get? k with
  | none => false
  | some (w, _) =>
    match List.lookup w idx with
    | none => false
    | some rc => decide (maxV < getCell (applyAddsU idx g (pairs.take (k + 1))) rc)

/-- Does the `k`-th pair of the batch trip the underflow check? -/
def underAt (idx : List (String × Nat × Nat)) (minV : ℤ) (g : Grid)
    (pairs : List (String × ℤ)) (k : Nat) : Bool :=
  match pairs.get? k with
  | none => false
  | some (w, _) =>
    match List.lookup w idx with
    | none => false
    | some rc => decide (getCell (applyRemovesU idx g (pairs.take (k + 1))) rc < minV)

/-- The `add` loop, reaching the first overflowing pair: every pair up to
and including it is applied, the loop stops there with an overflow error
naming that pair's well, and the rest of the batch is never applied. -/
theorem applyAdds_first_over (idx : List (String × Nat × Nat)) (maxV : ℤ)
    (label : Option String) :
    ∀ (pairs : List (String × ℤ)) (g : Grid) (k : Nat) (w : String) (v : ℤ),
      pairs.get? k = some (w, v) →
      (∀ p ∈ pairs, (List.lookup p.1 idx).isSome) →
      overAt idx maxV g pairs k = true →
      (∀ j, j < k → overAt idx maxV g pairs j = false) →
      applyAdds idx maxV label g pairs =
        .error (.volumeOverflowError label w, applyAddsU idx g (pairs.take (k + 1))) := by
  intro pairs
  induction pairs with
  | nil => intro g k w v hk; cases hk
  | cons p rest ih =>
    intro g k w v hk hres hover hfirst
    obtain ⟨w0, v0⟩ := p
    have hres0 : (List.lookup w0 idx).isSome := hres (w0, v0) (by simp)
    cases hl : List.lookup w0 idx with
    | none => rw [hl] at hres0; simp at hres0
    | some rc =>
      have happ0 : ∀ t, applyAddsU idx g ((w0, v0) :: t) = applyAddsU idx (bump g rc v0) t :=
        fun t => by simp only [applyAddsU, hl]
      match k with
      | 0 =>
        obtain ⟨rfl, rfl⟩ : w0 = w ∧ v0 = v := by
          simpa [Prod.ext_iff] using hk
        unfold overAt at hover
        simp only [List.get?_cons_zero, hl] at hover
        simp only [List.take_succ_cons, List.take_zero, happ0] at hover
        have hover' : maxV < getCell (bump g rc v0) rc := by
          simpa [applyAddsU] using hover
        simp only [applyAdds, hl, if_pos hover', List.take_succ_cons, List.take_zero, happ0]
        simp [applyAddsU]
      | k' + 1 =>
        have hshift : ∀ j, overAt idx maxV g ((w0, v0) :: rest) (j + 1) =
            overAt idx maxV (bump g rc v0) rest j := by
          intro j
          unfold overAt
          rw [List.get?_cons_succ, List.take_succ_cons, happ0]
        have hnot0 : overAt idx maxV g ((w0, v0) :: rest) 0 = false :=
          hfirst 0 (by omega)
        unfold overAt at hnot0
        simp only [List.get?_cons_zero, hl] at hnot0
        simp only [List.take_succ_cons, List.take_zero, happ0] at hnot0
        have hnover : ¬ maxV < getCell (bump g rc v0) rc := by
          simpa [applyAddsU] using hnot0
        have hres' : ∀ p ∈ rest, (List.lookup p.1 idx).isSome := fun p hp =>
          hres p (List.mem_cons_of_mem _ hp)
        have hk' : rest.get? k' = some (w, v) := by simpa using hk
        have hover' : overAt idx maxV (bump g rc v0) rest k' = true := by
          rw [← hshift k']; exact hover
        have hfirst' : ∀ j, j < k' → overAt idx maxV (bump g rc v0) rest j = false := by
          intro j hj
          rw [← hshift j]
          exact hfirst (j + 1) (by omega)
        simp only [applyAdds, hl, if_neg hnover, List.take_succ_cons, happ0]
        exact ih (bump g rc v0) k' w v hk' hres' hover' hfirst'

/-- The `remove` loop, reaching the first underflowing pair. -/
theorem applyRemoves_first_under (idx : List (String × Nat × Nat)) (minV : ℤ)
    (label : Option String) :
    ∀ (pairs : List (String × ℤ)) (g : Grid) (k : Nat) (w : String) (v : ℤ),
      pairs.get? k = some (w, v) →
      (∀ p ∈ pairs, (List.lookup p.1 idx).isSome) →
      underAt idx minV g pairs k = true →
      (∀ j, j < k → underAt idx minV g pairs j = false) →
      applyRemoves idx minV label g pairs =
        .error (.volumeUnderflowError label w, applyRemovesU idx g (pairs.take (k + 1))) := by
  intro pairs
  induction pairs with
  | nil => intro g k w v hk; cases hk
  | cons p rest ih =>
    intro g k w v hk hres hunder hfirst
    obtain ⟨w0, v0⟩ := p
    have hres0 : (List.lookup w0 idx).isSome := hres (w0, v0) (by simp)
    cases hl : List.lookup w0 idx with
    | none => rw [hl] at hres0; simp at hres0
    | some rc =>
      have hsub : ∀ x : ℤ, setCell g rc (getCell g rc - x) = bump g rc (-x) :=
        fun x => by unfold bump; rw [sub_eq_add_neg]
      have happ0 : ∀ t, applyRemovesU idx g ((w0, v0) :: t) =
          applyRemovesU idx (bump g rc (-v0)) t :=
        fun t => by simp only [applyRemovesU, hl]
      match k with
      | 0 =>
        obtain ⟨rfl, rfl⟩ : w0 = w ∧ v0 = v := by
          simpa [Prod.ext_iff] using hk
        unfold underAt at hunder
        simp only [List.get?_cons_zero, hl] at hunder
        simp only [List.take_succ_cons, List.take_zero, happ0] at hunder
        have hunder' : getCell (bump g rc (-v0)) rc < minV := by
          simpa [applyRemovesU] using hunder
        simp only [applyRemoves, hl, hsub, if_pos hunder', List.take_succ_cons,
          List.take_zero, happ0]
        simp [applyRemovesU]
      | k' + 1 =>
        have hshift : ∀ j, underAt idx minV g ((w0, v0) :: rest) (j + 1) =
            underAt idx minV (bump g rc (-v0)) rest j := by
          intro j
          unfold underAt
          rw [List.get?_cons_succ, List.take_succ_cons, happ0]
        have hnot0 : underAt idx minV g ((w0, v0) :: rest) 0 = false :=
          hfirst 0 (by omega)
        unfold underAt at hnot0
        simp only [List.get?_cons_zero, hl] at hnot0
        simp only [List.take_succ_cons, List.take_zero, happ0] at hnot0
        have hnunder : ¬ getCell (bump g rc (-v0)) rc < minV := by
          simpa [applyRemovesU] using hnot0
        have hres' : ∀ p ∈ rest, (List.lookup p.1 idx).isSome := fun p hp =>
          hres p (List.mem_cons_of_mem _ hp)
        have hk' : rest.get? k' = some (w, v) := by simpa using hk
        have hunder' : underAt idx minV (bump g rc (-v0)) rest k' = true := by
          rw [← hshift k']; exact hunder
        have hfirst' : ∀ j, j < k' → underAt idx minV (bump g rc (-v0)) rest j = false := by
          intro j hj
          rw [← hshift j]
          exact hfirst (j + 1) (by omega)
        simp only [applyRemoves, hl, hsub, if_neg hnunder, List.take_succ_cons, happ0]
        exact ih (bump g rc (-v0)) k' w v hk' hres' hunder' hfirst'

/-! Injectivity of the well-id formatting -/

/-- Value of a decimal digit character (arbitrary on non-digits). -/
def decDigitVal (c : Char) : Nat :=
  match c with
  | '0' => 0 | '1' => 1 | '2' => 2 | '3' => 3 | '4' => 4
  | '5' => 5 | '6' => 6 | '7' => 7 | '8' => 8 | _ => 9

def decVal (ds : List Char) : Nat :=
  ds.foldl (fun a c => a * 10 + decDigitVal c) 0

theorem decDigitVal_decDigit : ∀ d, d < 10 → decDigitVal (decDigit d) = d := by decide

theorem decVal_append_digit (ds : List Char) (c : Char) :
    decVal (ds ++ [c]) = decVal ds * 10 + decDigitVal c := by
  unfold decVal
  rw [List.foldl_append]
  rfl

theorem decVal_decRepr (n : Nat) : decVal (decRepr n) = n := by
  induction n using Nat.strong_induction_on with
  | _ n ih =>
    rw [decRepr_eq]
    by_cases h10 : n < 10
    · rw [if_pos h10]
      show 0 * 10 + decDigitVal (decDigit n) = n
      rw [decDigitVal_decDigit n h10]
      omega
    · rw [if_neg h10, decVal_append_digit,
        ih (n / 10) (Nat.div_lt_self (by omega) (by omega)),
        decDigitVal_decDigit (n % 10) (Nat.mod_lt n (by omega))]
      omega

theorem decRepr_injective {a b : Nat} (h : decRepr a = decRepr b) : a = b := by
  have := congrArg decVal h
  rwa [decVal_decRepr, decVal_decRepr] at this

theorem decRepr_ne_nil (n : Nat) : decRepr n ≠ [] := by
  rw [decRepr_eq]
  by_cases h10 : n < 10
  · simp [h10]
  · simp [h10]

theorem decRepr_head?_ne_zero : ∀ n, 1 ≤ n → (decRepr n).head? ≠ some '0' := by
  intro n
  induction n using Nat.strong_induction_on with
  | _ n ih =>
    intro h1
    rw [decRepr_eq]
    by_cases h10 : n < 10
    · rw [if_pos h10]
      have : ∀ m, m < 10 → 1 ≤ m → decDigit m ≠ '0' := by decide
      simpa using this n h10 h1
    · rw [if_neg h10, List.head?_append]
      have hd : n / 10 ≥ 1 := by omega
      have hne := decRepr_ne_nil (n / 10)
      have hih := ih (n / 10) (Nat.div_lt_self (by omega) (by omega)) hd
      cases hh : (decRepr (n / 10)).head? with
      | none => exact absurd (List.head?_eq_none_iff.mp hh) hne
      | some a =>
        rw [hh] at hih
        simpa using hih

theorem pad2_injective {a b : Nat} (h : pad2 a = pad2 b) : a = b := by
  unfold pad2 at h
  by_cases ha : a < 10 <;> by_cases hb : b < 10
  · rw [if_pos ha, if_pos hb] at h
    exact decRepr_injective (List.cons_injective h)
  · rw [if_pos ha, if_neg hb] at h
    exact absurd (by rw [← h]; rfl) (decRepr_head?_ne_zero b (by omega))
  · rw [if_neg ha, if_pos hb] at h
    exact absurd (by rw [h]; rfl) (decRepr_head?_ne_zero a (by omega))
  · rw [if_neg ha, if_neg hb] at h
    exact decRepr_injective h

theorem rowLetter_injective : ∀ r1, r1 < 26 → ∀ r2, r2 < 26 →
    rowLetter r1 = rowLetter r2 → r1 = r2 := by decide

theorem wellId_injective {r1 c1 r2 c2 : Nat} (h1 : r1 < 26) (h2 : r2 < 26)
    (h : wellId (rowLetter r1) c1 = wellId (rowLetter r2) c2) : r1 = r2 ∧ c1 = c2 := by
  unfold wellId at h
  have hd : rowLetter r1 :: pad2 c1 = rowLetter r2 :: pad2 c2 := congrArg String.data h
  rw [List.cons.injEq] at hd
  exact ⟨rowLetter_injective r1 h1 r2 h2 hd.1, pad2_injective hd.2⟩

/-! Lookup in comprehension-built dictionaries -/

/-- The comprehension `{key(r, c): val(r, c) for r in range(R) for c in range(C)}`
as an association list. -/
def compL {α : Type} (R C : Nat) (key : Nat → Nat → String) (val : Nat → Nat → α) :
    List (String × α) :=
  (List.range R).flatMap fun r => (List.range C).map fun c => (key r c, val r c)

theorem mem_compL {α : Type} {R C : Nat} {key : Nat → Nat → String} {val : Nat → Nat → α}
    {p : String × α} :
    p ∈ compL R C key val ↔ ∃ r c, r < R ∧ c < C ∧ p = (key r c, val r c) := by
  unfold compL
  simp only [List.mem_flatMap, List.mem_map, List.mem_range]
  constructor
  · rintro ⟨r, hr, c, hc, rfl⟩
    exact ⟨r, c, hr, hc, rfl⟩
  · rintro ⟨r, c, hr, hc, rfl⟩
    exact ⟨r, hr, c, hc, rfl⟩

theorem lookup_mem {α : Type} : ∀ {l : List (String × α)} {k : String} {v : α},
    List.lookup k l = some v → (k, v) ∈ l := by
  intro l
  induction l with
  | nil => intro k v h; cases h
  | cons p t ih =>
    intro k v h
    obtain ⟨k', v'⟩ := p
    rw [List.lookup_cons] at h
    cases hbe : (k == k') with
    | true =>
      rw [hbe] at h
      cases h
      have : k = k' := by simpa using hbe
      subst this
      exact List.mem_cons_self _ _
    | false =>
      rw [hbe] at h
      exact List.mem_cons_of_mem _ (ih h)

theorem lookup_of_mem_nodupKeys {α : Type} : ∀ {l : List (String × α)},
    (l.map Prod.fst).Nodup → ∀ {k : String} {v : α}, (k, v) ∈ l →
    List.lookup k l = some v := by
  intro l
  induction l with
  | nil => intro _ k v h; cases h
  | cons p t ih =>
    intro hnd k v hmem
    obtain ⟨k', v'⟩ := p
    rw [List.map_cons, List.nodup_cons] at hnd
    rcases List.mem_cons.mp hmem with he | ht
    · cases he
      rw [List.lookup_cons]
      simp
    · have hk : k ≠ k' := by
        rintro rfl
        exact hnd.1 (List.mem_map.mpr ⟨(k, v), ht, rfl⟩)
      rw [List.lookup_cons]
      have : (k == k') = false := by simpa using hk
      rw [this]
      exact ih hnd.2 ht

theorem nodupKeys_compL {α : Type} (R C : Nat) (key : Nat → Nat → String)
    (val : Nat → Nat → α)
    (hkey : ∀ r1 c1 r2 c2, r1 < R → c1 < C → r2 < R → c2 < C →
      key r1 c1 = key r2 c2 → r1 = r2 ∧ c1 = c2) :
    ((compL R C key val).map Prod.fst).Nodup := by
  unfold compL
  rw [List.map_flatMap]
  rw [List.nodup_flatMap]
  constructor
  · intro r hr
    rw [List.mem_range] at hr
    rw [List.map_map]
    apply List.Nodup.map_on
    · intro c1 hc1 c2 hc2 he
      rw [List.mem_range] at hc1 hc2
      exact (hkey r c1 r c2 hr hc1 hr hc2 (by simpa using he)).2
    · exact List.nodup_range C
  · rw [List.pairwise_iff_forall_sublist]
    intro r1 r2 hsub
    have hr1 : r1 ∈ List.range R := hsub.subset (by simp)
    have hr2 : r2 ∈ List.range R := hsub.subset (by simp)
    rw [List.mem_range] at hr1 hr2
    have hne : r1 ≠ r2 := by
      have := List.Sublist.length_le hsub
      intro he
      subst he
      have := (List.nodup_range R).sublist hsub
      simp at this
    intro s h1 h2
    simp only [List.map_map, List.mem_map, Function.comp_apply] at h1 h2
    obtain ⟨c1, hc1, he1⟩ := h1
    obtain ⟨c2, hc2, he2⟩ := h2
    rw [List.mem_range] at hc1 hc2
    exact hne (hkey r1 c1 r2 c2 hr1 hc1 hr2 hc2 (he1.trans he2.symm)).1

theorem lookup_compL {α : Type} (R C : Nat) (key : Nat → Nat → String) (val : Nat → Nat → α)
    (hkey : ∀ r1 c1 r2 c2, r1 < R → c1 < C → r2 < R → c2 < C →
      key r1 c1 = key r2 c2 → r1 = r2 ∧ c1 = c2)
    {r c : Nat} (hr : r < R) (hc : c < C) :
    List.lookup (key r c) (compL R C key val) = some (val r c) :=
  lookup_of_mem_nodupKeys (nodupKeys_compL R C key val hkey)
    (mem_compL.mpr ⟨r, c, hr, hc, rfl⟩)

theorem lookup_compL_inv {α : Type} {R C : Nat} {key : Nat → Nat → String}
    {val : Nat → Nat → α} {w : String} {v : α}
    (h : List.lookup w (compL R C key val) = some v) :
    ∃ r c, r < R ∧ c < C ∧ w = key r c ∧ v = val r c := by
  obtain ⟨r, c, hr, hc, hp⟩ := mem_compL.mp (lookup_mem h)
  rw [Prod.ext_iff] at hp
  exact ⟨r, c, hr, hc, hp.1, hp.2⟩

/-! Characterising the constructed addressing -/

theorem alphabet_length : alphabet.length = 26 := rfl

theorem getD_take {α : Type} (l : List α) (n i : Nat) (d : α) (h : i < n) :
    (l.take n).getD i d = l.getD i d := by
  simp [List.getD_eq_getElem?_getD, List.getElem?_take_of_lt h]

theorem getD_range' (s n i d : Nat) (h : i < n) : (List.range' s n).getD i d = s + i := by
  have hl : i < (List.range' s n).length := by simpa using h
  rw [List.getD_eq_getElem?_getD, List.getElem?_eq_getElem hl]
  simp

theorem take_alphabet (rows : Nat) :
    alphabet.take rows = (List.range (min rows 26)).map rowLetter := by
  apply List.ext_getElem?
  intro i
  by_cases h : i < min rows 26
  · have hlen1 : i < (alphabet.take rows).length := by
      rw [List.length_take, alphabet_length]; omega
    have hlen2 : i < ((List.range (min rows 26)).map rowLetter).length := by
      simpa using h
    rw [List.getElem?_eq_getElem hlen1, List.getElem?_eq_getElem hlen2]
    have hi26 : i < alphabet.length := by rw [alphabet_length]; omega
    have hgoal : (alphabet.take rows)[i] = alphabet[i] := List.getElem_take alphabet
    rw [hgoal, List.getElem_map, List.getElem_range]
    rw [rowLetter, List.getD_eq_getElem?_getD, List.getElem?_eq_getElem hi26]
    rfl
  · have hlen1 : (alphabet.take rows).length ≤ i := by
      rw [List.length_take, alphabet_length]; omega
    have hlen2 : ((List.range (min rows 26)).map rowLetter).length ≤ i := by
      simpa using (by omega : min rows 26 ≤ i)
    rw [List.getElem?_eq_none hlen1, List.getElem?_eq_none hlen2]

theorem length_range_flatMap {β : Type} (R C : Nat) (f : Nat → Nat → β) :
    ((List.range R).flatMap fun r => (List.range C).map (f r)).length = R * C := by
  induction R with
  | zero => simp
  | succ R ih =>
    rw [List.range_succ, List.flatMap_append, List.length_append, ih]
    simp [Nat.succ_mul]

/-- The indices dictionary built by the constructor, in comprehension form. -/
theorem assemble_indicesDict (name : String) (rows columns : Nat) (minV maxV : ℤ)
    (iv1 : Grid) :
    (Labware.assemble name rows columns minV maxV iv1).indicesDict =
      compL (min rows 26) columns (fun r c => wellId (rowLetter r) (c + 1))
        (fun r c => (r, c)) := by
  unfold Labware.assemble compL
  simp only [List.length_take, alphabet_length, List.length_range']
  apply List.flatMap_congr
  intro r hr
  rw [List.mem_range] at hr
  apply List.map_congr_left
  intro c hc
  rw [List.mem_range] at hc
  rw [getD_take alphabet rows r 'A' (by omega), getD_range' 1 columns c 0 hc]
  rw [show 1 + c = c + 1 by omega]
  rfl

/-- The positions dictionary built by the constructor, in comprehension form. -/
theorem assemble_positionsDict (name : String) (rows columns : Nat) (minV maxV : ℤ)
    (iv1 : Grid) :
    (Labware.assemble name rows columns minV maxV iv1).positionsDict =
      compL (min rows 26) columns (fun r c => wellId (rowLetter r) (c + 1))
        (fun r c => 1 + c * rows + r) := by
  unfold Labware.assemble compL
  simp only [List.length_take, alphabet_length, List.length_range']
  apply List.flatMap_congr
  intro r hr
  rw [List.mem_range] at hr
  apply List.map_congr_left
  intro c hc
  rw [List.mem_range] at hc
  rw [getD_take alphabet rows r 'A' (by omega), getD_range' 1 columns c 0 hc]
  rw [show 1 + c = c + 1 by omega]
  rfl

/-- The flattened well-id listing built by the constructor. -/
theorem assemble_wellIds (name : String) (rows columns : Nat) (minV maxV : ℤ)
    (iv1 : Grid) :
    (Labware.assemble name rows columns minV maxV iv1).wellIds =
      (List.range (min rows 26)).flatMap fun r => (List.range columns).map fun c =>
        wellId (rowLetter r) (c + 1) := by
  unfold Labware.wellIds Labware.assemble
  simp only
  rw [take_alphabet, ← List.flatMap_def, List.flatMap_map]
  apply List.flatMap_congr
  intro r hr
  rw [List.range'_eq_map_range, List.map_map]
  apply List.map_congr_left
  intro c hc
  simp only [Function.comp_apply]
  rw [show 1 + c = c + 1 by omega]

/-- Success of the constructor yields exactly the assembled state, with a
ledger of the declared shape. -/
theorem init_ok {name : String} {rows columns : Nat} {minV maxV : ℤ}
    {iv : InitialVolumes} {lw : Labware}
    (h : Labware.init name rows columns minV maxV iv = .ok lw) :
    lw = Labware.assemble name rows columns minV maxV lw.volumesArr ∧
      gridShapeIs lw.volumesArr rows columns := by
  unfold Labware.init at h
  cases ht : arrayTruthiness iv with
  | error e => rw [ht] at h; cases h
  | ok t =>
    rw [ht] at h
    simp only at h
    by_cases hsh : gridShapeIs (explodeVolumes rows columns iv t) rows columns
    · rw [if_pos hsh] at h
      cases h
      exact ⟨rfl, hsh⟩
    · rw [if_neg hsh] at h
      cases h

/-! Operation-level characterisations -/

/-- Invariant: `self._labels` and `self._history` always have the same
length (they are appended to in lockstep). -/
def Labware.WF (lw : Labware) : Prop :=
  lw.labelsArr.length = lw.historyArr.length

instance (lw : Labware) : Decidable (Labware.WF lw) := by
  unfold Labware.WF; infer_instance

theorem Labware.add_ok {lw : Labware} {wells : List String} {vargs : VolumesArg}
    {label : Option String} {lw1 : Labware} (h : lw.add wells vargs label = .ok lw1) :
    lw1.volumesArr =
        applyAddsU lw.indicesDict lw.volumesArr (wells.zip (normVolumes wells.length vargs)) ∧
      lw1.historyArr = lw.historyArr ++ [lw1.volumesArr] ∧
      lw1.labelsArr = lw.labelsArr ++ [label] ∧
      lw1.indicesDict = lw.indicesDict ∧
      lw1.min_volume = lw.min_volume ∧ lw1.max_volume = lw.max_volume := by
  unfold Labware.add at h
  by_cases hlen : (normVolumes wells.length vargs).length = wells.length
  · rw [if_pos hlen] at h
    by_cases hnn : ∀ v ∈ normVolumes wells.length vargs, 0 ≤ v
    · rw [if_pos hnn] at h
      cases happ : applyAdds lw.indicesDict lw.max_volume label lw.volumesArr
          (wells.zip (normVolumes wells.length vargs)) with
      | error p =>
        obtain ⟨e, g1⟩ := p
        rw [happ] at h
        cases h
      | ok g1 =>
        rw [happ] at h
        cases h
        refine ⟨applyAdds_ok _ _ _ _ _ _ happ, ?_, ?_, ?_, ?_, ?_⟩ <;> rfl
    · rw [if_neg hnn] at h
      cases h
  · rw [if_neg hlen] at h
    cases h

theorem Labware.add_err {lw : Labware} {wells : List String} {vargs : VolumesArg}
    {label : Option String} {e : LHError} {lw1 : Labware}
    (h : lw.add wells vargs label = .err e lw1) :
    lw1.historyArr = lw.historyArr ∧ lw1.labelsArr = lw.labelsArr := by
  unfold Labware.add at h
  by_cases hlen : (normVolumes wells.length vargs).length = wells.length
  · rw [if_pos hlen] at h
    by_cases hnn : ∀ v ∈ normVolumes wells.length vargs, 0 ≤ v
    · rw [if_pos hnn] at h
      cases happ : applyAdds lw.indicesDict lw.max_volume label lw.volumesArr
          (wells.zip (normVolumes wells.length vargs)) with
      | error p =>
        obtain ⟨e', g1⟩ := p
        rw [happ] at h
        cases h
        exact ⟨rfl, rfl⟩
      | ok g1 =>
        rw [happ] at h
        cases h
    · rw [if_neg hnn] at h
      cases h
      exact ⟨rfl, rfl⟩
  · rw [if_neg hlen] at h
    cases h
    exact ⟨rfl, rfl⟩

theorem Labware.remove_ok {lw : Labware} {wells : List String} {vargs : VolumesArg}
    {label : Option String} {lw1 : Labware} (h : lw.remove wells vargs label = .ok lw1) :
    lw1.volumesArr =
        applyRemovesU lw.indicesDict lw.volumesArr (wells.zip (normVolumes wells.length vargs)) ∧
      lw1.historyArr = lw.historyArr ++ [lw1.volumesArr] ∧
      lw1.labelsArr = lw.labelsArr ++ [label] ∧
      lw1.indicesDict = lw.indicesDict ∧
      lw1.min_volume = lw.min_volume ∧ lw1.max_volume = lw.max_volume := by
  unfold Labware.remove at h
  by_cases hlen : (normVolumes wells.length vargs).length = wells.length
  · rw [if_pos hlen] at h
    by_cases hnn : ∀ v ∈ normVolumes wells.length vargs, 0 ≤ v
    · rw [if_pos hnn] at h
      cases happ : applyRemoves lw.indicesDict lw.min_volume label lw.volumesArr
          (wells.zip (normVolumes wells.length vargs)) with
      | error p =>
        obtain ⟨e, g1⟩ := p
        rw [happ] at h
        cases h
      | ok g1 =>
        rw [happ] at h
        cases h
        refine ⟨applyRemoves_ok _ _ _ _ _ _ happ, ?_, ?_, ?_, ?_, ?_⟩ <;> rfl
    · rw [if_neg hnn] at h
      cases h
  · rw [if_neg hlen] at h
    cases h

theorem Labware.remove_err {lw : Labware} {wells : List String} {vargs : VolumesArg}
    {label : Option String} {e : LHError} {lw1 : Labware}
    (h : lw.remove wells vargs label = .err e lw1) :
    lw1.historyArr = lw.historyArr ∧ lw1.labelsArr = lw.labelsArr := by
  unfold Labware.remove at h
  by_cases hlen : (normVolumes wells.length vargs).length = wells.length
  · rw [if_pos hlen] at h
    by_cases hnn : ∀ v ∈ normVolumes wells.length vargs, 0 ≤ v
    · rw [if_pos hnn] at h
      cases happ : applyRemoves lw.indicesDict lw.min_volume label lw.volumesArr
          (wells.zip (normVolumes wells.length vargs)) with
      | error p =>
        obtain ⟨e', g1⟩ := p
        rw [happ] at h
        cases h
        exact ⟨rfl, rfl⟩
      | ok g1 =>
        rw [happ] at h
        cases h
    · rw [if_neg hnn] at h
      cases h
      exact ⟨rfl, rfl⟩
  · rw [if_neg hlen] at h
    cases h
    exact ⟨rfl, rfl⟩

/-! Claim theorems -/

/-- C1: an `add` batch is applied pair by pair in the given order; the first
pair whose addition pushes its cell over `max_volume` raises an overflow
error naming that well and the label, and leaves the ledger with every
pair up to and including the failing one applied (no rollback) and the
history untouched. -/
theorem Labware.add_first_overflow (lw : Labware) (wells : List String) (vargs : VolumesArg)
    (label : Option String) (vols : List ℤ) (k : Nat) (w : String) (v : ℤ)
    (hvols : normVolumes wells.length vargs = vols)
    (hlen : vols.length = wells.length)
    (hnn : ∀ x ∈ vols, 0 ≤ x)
    (hres : ∀ p ∈ wells.zip vols, (List.lookup p.1 lw.indicesDict).isSome)
    (hk : (wells.zip vols).get? k = some (w, v))
    (hover : overAt lw.indicesDict lw.max_volume lw.volumesArr (wells.zip vols) k = true)
    (hfirst : ∀ j < k,
      overAt lw.indicesDict lw.max_volume lw.volumesArr (wells.zip vols) j = false) :
    lw.add wells vargs label =
      .err (.volumeOverflowError label w)
        { lw with volumesArr :=
            applyAddsU lw.indicesDict lw.volumesArr ((wells.zip vols).take (k + 1)) } := by
  subst hvols
  simp only [Labware.add]
  rw [if_pos hlen, if_pos hnn,
    applyAdds_first_over lw.indicesDict lw.max_volume label _ lw.volumesArr k w v hk hres
      hover hfirst]

/-- The labware of the spec's Scenario A: 2 rows, 3 columns, bounds
[0, 100], default (all-zero) initial volumes. -/
def scenarioA : Labware :=
  Labware.assemble "T" 2 3 0 100 (explodeVolumes 2 3 InitialVolumes.none false)

/-- C1 witness: Scenario B.  On a fresh 2 x 3 labware with bounds [0, 100],
`add(['A01','A01'], [50, 60], label='fill')` overflows at the second pair:
`A01` ends at 110 (both additions applied), the history is untouched, and
the error names `A01` and the label `fill`. -/
theorem add_first_overflow_scenarioB :
    Labware.init "T" 2 3 0 100 .none = .ok scenarioA ∧
      scenarioA.add ["A01", "A01"] (.array [50, 60]) (some "fill") =
        .err (.volumeOverflowError (some "fill") "A01")
          { scenarioA with volumesArr := [[110, 0, 0], [0, 0, 0]] } := by
  constructor
  · rfl
  · have h := Labware.add_first_overflow scenarioA ["A01", "A01"] (.array [50, 60])
      (some "fill") [50, 60] 1 "A01" 60 rfl (by decide) (by decide) (by decide) (by decide)
      (by decide) (by decide)
    rw [h]
    decide

/-- C2: on any labware state, a successful `add` followed by a successful
`remove` of the same wells and volumes (in the same order) restores the
ledger exactly. -/
theorem Labware.add_remove_roundtrip (lw lw1 lw2 : Labware) (wells : List String)
    (vargs : VolumesArg) (label1 label2 : Option String)
    (hne : wells ≠ [])
    (hnn : ∀ x ∈ normVolumes wells.length vargs, 0 ≤ x)
    (h1 : lw.add wells vargs label1 = .ok lw1)
    (h2 : lw1.remove wells vargs label2 = .ok lw2) :
    lw2.volumesArr = lw.volumesArr := by
  obtain ⟨hv1, _, _, hidx, _, _⟩ := Labware.add_ok h1
  obtain ⟨hv2, _, _, _, _, _⟩ := Labware.remove_ok h2
  rw [hv2, hidx, hv1]
  exact applyRemovesU_applyAddsU lw.indicesDict
    (wells.zip (normVolumes wells.length vargs)) lw.volumesArr

/-- C2 witness: filling `A01`/`A02` with 30 each and removing the same
volumes returns the ledger of Scenario A's labware to all zeros. -/
theorem add_remove_roundtrip_witness :
    ∃ lw1 lw2 : Labware,
      scenarioA.add ["A01", "A02"] (.scalar 30) (some "fill") = .ok lw1 ∧
      lw1.remove ["A01", "A02"] (.scalar 30) (some "unfill") = .ok lw2 ∧
      lw2.volumesArr = scenarioA.volumesArr := by
  refine ⟨_, _, rfl, rfl, ?_⟩
  exact Labware.add_remove_roundtrip scenarioA _ _ ["A01", "A02"] (.scalar 30)
    (some "fill") (some "unfill") (by decide) (by decide) rfl rfl

/-- C3: the history is append-only.  Construction seeds it with the single
entry `('initial', initial ledger)`; `log` and every successful `add` or
`remove` append exactly one `(label, snapshot)` entry, preserving all
earlier entries; a failed `add` or `remove` appends nothing. -/
theorem Labware.history_append_only :
    (∀ (name : String) (rows columns : Nat) (minV maxV : ℤ) (iv : InitialVolumes)
        (lw : Labware), Labware.init name rows columns minV maxV iv = .ok lw →
        lw.history = [(some "initial", lw.volumesArr)]) ∧
    (∀ (lw : Labware) (label : Option String), lw.WF →
        (lw.log label).history = lw.history ++ [(label, lw.volumesArr)]) ∧
    (∀ (lw : Labware) (wells : List String) (vargs : VolumesArg) (label : Option String)
        (lw1 : Labware), lw.WF → lw.add wells vargs label = .ok lw1 →
        lw1.history = lw.history ++ [(label, lw1.volumesArr)]) ∧
    (∀ (lw : Labware) (wells : List String) (vargs : VolumesArg) (label : Option String)
        (e : LHError) (lw1 : Labware), lw.add wells vargs label = .err e lw1 →
        lw1.history = lw.history) ∧
    (∀ (lw : Labware) (wells : List String) (vargs : VolumesArg) (label : Option String)
        (lw1 : Labware), lw.WF → lw.remove wells vargs label = .ok lw1 →
        lw1.history = lw.history ++ [(label, lw1.volumesArr)]) ∧
    (∀ (lw : Labware) (wells : List String) (vargs : VolumesArg) (label : Option String)
        (e : LHError) (lw1 : Labware), lw.remove wells vargs label = .err e lw1 →
        lw1.history = lw.history) := by
  refine ⟨?_, ?_, ?_, ?_, ?_, ?_⟩
  · intro name rows columns minV maxV iv lw h
    obtain ⟨heq, -⟩ := init_ok h
    rw [heq]
    rfl
  · intro lw label hwf
    unfold Labware.log Labware.history
    simp only
    rw [List.zip_append hwf]
    rfl
  · intro lw wells vargs label lw1 hwf h
    obtain ⟨-, hh, hl, -, -, -⟩ := Labware.add_ok h
    unfold Labware.history
    rw [hh, hl, List.zip_append hwf]
    rfl
  · intro lw wells vargs label e lw1 h
    obtain ⟨hh, hl⟩ := Labware.add_err h
    unfold Labware.history
    rw [hh, hl]
  · intro lw wells vargs label lw1 hwf h
    obtain ⟨-, hh, hl, -, -, -⟩ := Labware.remove_ok h
    unfold Labware.history
    rw [hh, hl, List.zip_append hwf]
    rfl
  · intro lw wells vargs label e lw1 h
    obtain ⟨hh, hl⟩ := Labware.remove_err h
    unfold Labware.history
    rw [hh, hl]

/-- C3 witness: on Scenario A's labware, entry 0 of the history is the
labelled initial snapshot, and a direct `log` call appends exactly one
entry. -/
theorem history_append_only_witness :
    Labware.init "T" 2 3 0 100 .none = .ok scenarioA ∧
      scenarioA.history = [(some "initial", scenarioA.volumesArr)] ∧
      (scenarioA.log (some "mark")).history =
        scenarioA.history ++ [(some "mark", scenarioA.volumesArr)] := by
  refine ⟨rfl, ?_, ?_⟩
  · exact Labware.history_append_only.1 "T" 2 3 0 100 .none scenarioA rfl
  · exact Labware.history_append_only.2.1 scenarioA (some "mark") (by decide)

/-- C4 counterexample: a 27-row construction violates the claimed
`rowCount` range check but succeeds anyway. -/
theorem init_rows27_accepted :
    (Labware.init "T" 27 1 0 100 .none).isOk = true ∧ ¬ (27 ≤ 26) := by decide

/-- C4 amended: the constructor validates only the shape of a grid
`initial_volumes`.  With the default (`None`) initial volumes it accepts
every `rows`, `columns`, `min_volume` and `max_volume` — including
`rows = 0` or `rows > 26` (the row letters silently truncate to 26),
`columns = 0`, and `min_volume > max_volume`. -/
theorem init_accepts_any_bounds (name : String) (rows columns : Nat) (minV maxV : ℤ) :
    ∃ lw : Labware, Labware.init name rows columns minV maxV .none = .ok lw ∧
      lw.row_ids.length = min rows 26 ∧
      lw.min_volume = minV ∧ lw.max_volume = maxV := by
  unfold Labware.init
  simp only [arrayTruthiness]
  have hsh : gridShapeIs (explodeVolumes rows columns .none false) rows columns := by
    unfold explodeVolumes gridShapeIs
    simp [List.mem_replicate]
  rw [if_pos hsh]
  refine ⟨_, rfl, ?_, rfl, rfl⟩
  simp [Labware.assemble, List.length_take, alphabet_length]

/-- C5: the Python intent is that a caller-supplied grid of exactly the
declared shape is accepted as the ledger (the shape `assert` and the
`.copy()` exist only for that case), but `if not initial_volumes:` asks
numpy for the truth value of the array, which raises `ValueError` for any
grid with more than one element — before the shape check is ever reached.
Absent and scalar initial volumes behave as specified. -/
theorem init_grid_truthiness_error :
    Labware.init "T" 2 3 0 100 (.grid [[10, 10, 10], [10, 10, 10]]) =
        .error (.valueError truthMsg) ∧
      (Labware.init "T" 2 3 0 100 .none).map Labware.volumes =
        .ok [[0, 0, 0], [0, 0, 0]] ∧
      (Labware.init "T" 2 3 0 100 (.scalar 7)).map Labware.volumes =
        .ok [[7, 7, 7], [7, 7, 7]] := by decide

/-- C6: for a valid construction (1-26 rows, at least one column), the
flattened well-id listing has exactly `rows * columns` entries, laid out
row-major with each id formatted as the row letter followed by the
zero-padded two-digit 1-based column number, and the indices dictionary
is a bijection between these ids and the coordinate rectangle. -/
theorem Labware.wellIds_spec (name : String) (rows columns : Nat) (minV maxV : ℤ)
    (iv : InitialVolumes) (lw : Labware)
    (h1 : 1 ≤ rows) (h26 : rows ≤ 26) (hc : 1 ≤ columns)
    (hinit : Labware.init name rows columns minV maxV iv = .ok lw) :
    lw.wellIds.length = rows * columns ∧
      lw.wellIds = ((List.range rows).flatMap fun r => (List.range columns).map fun c =>
        wellId (rowLetter r) (c + 1)) ∧
      (∀ r c, r < rows → c < columns →
        List.lookup (wellId (rowLetter r) (c + 1)) lw.indicesDict = some (r, c)) ∧
      (∀ w r c, List.lookup w lw.indicesDict = some (r, c) →
        r < rows ∧ c < columns ∧ w = wellId (rowLetter r) (c + 1)) := by
  obtain ⟨heq, -⟩ := init_ok hinit
  have hmin : min rows 26 = rows := by omega
  have hkey : ∀ r1 c1 r2 c2, r1 < rows → c1 < columns → r2 < rows → c2 < columns →
      wellId (rowLetter r1) (c1 + 1) = wellId (rowLetter r2) (c2 + 1) →
      r1 = r2 ∧ c1 = c2 := by
    intro r1 c1 r2 c2 hr1 hc1 hr2 hc2 he
    obtain ⟨ha, hb⟩ := wellId_injective (by omega) (by omega) he
    exact ⟨ha, by omega⟩
  refine ⟨?_, ?_, ?_, ?_⟩
  · rw [heq, assemble_wellIds, hmin]
    exact length_range_flatMap rows columns _
  · rw [heq, assemble_wellIds, hmin]
  · intro r c hr hcc
    rw [heq, assemble_indicesDict, hmin]
    exact lookup_compL rows columns _ _ hkey hr hcc
  · intro w r c hlook
    rw [heq, assemble_indicesDict, hmin] at hlook
    obtain ⟨r', c', hr', hc', hw, hv⟩ := lookup_compL_inv hlook
    obtain ⟨rfl, rfl⟩ : r' = r ∧ c' = c := by
      simpa [Prod.ext_iff] using hv.symm
    exact ⟨hr', hc', hw⟩

/-- C6 witness: Scenario A's 2 x 3 labware has the six well ids
`A01 A02 A03 B01 B02 B03` in row-major order, and its indices dictionary
maps `B02` to the coordinate (1, 1). -/
theorem wellIds_spec_scenarioA :
    Labware.init "T" 2 3 0 100 .none = .ok scenarioA ∧
      scenarioA.wellIds.length = 2 * 3 ∧
      scenarioA.wellIds = ["A01", "A02", "A03", "B01", "B02", "B03"] ∧
      List.lookup "B02" scenarioA.indicesDict = some (1, 1) := by
  refine ⟨rfl, ?_, by decide, by decide⟩
  exact (Labware.wellIds_spec "T" 2 3 0 100 .none scenarioA (by omega) (by omega) (by omega)
    rfl).1

/-- C7: a `remove` batch is validated and applied exactly like `add` —
volumes normalised from a scalar or per-well array, non-negativity and
length asserted, pairs applied in order — but subtracting, and the first
cell to drop below `min_volume` raises an underflow error naming that
well and the label, leaving the partially updated ledger and no new
history entry. -/
theorem Labware.remove_first_underflow (lw : Labware) (wells : List String)
    (vargs : VolumesArg) (label : Option String) (vols : List ℤ) (k : Nat) (w : String)
    (v : ℤ)
    (hvols : normVolumes wells.length vargs = vols)
    (hlen : vols.length = wells.length)
    (hnn : ∀ x ∈ vols, 0 ≤ x)
    (hres : ∀ p ∈ wells.zip vols, (List.lookup p.1 lw.indicesDict).isSome)
    (hk : (wells.zip vols).get? k = some (w, v))
    (hunder : underAt lw.indicesDict lw.min_volume lw.volumesArr (wells.zip vols) k = true)
    (hfirst : ∀ j < k,
      underAt lw.indicesDict lw.min_volume lw.volumesArr (wells.zip vols) j = false) :
    lw.remove wells vargs label =
      .err (.volumeUnderflowError label w)
        { lw with volumesArr :=
            applyRemovesU lw.indicesDict lw.volumesArr ((wells.zip vols).take (k + 1)) } := by
  subst hvols
  simp only [Labware.remove]
  rw [if_pos hlen, if_pos hnn,
    applyRemoves_first_under lw.indicesDict lw.min_volume label _ lw.volumesArr k w v hk hres
      hunder hfirst]

/-- C7 witness: Scenario D.  `remove(['A01'], 5, label='drain')` on a well
holding 0 with `min_volume = 0` underflows at the first pair: the error
names `A01` and the label, the cell is left at -5, and no history entry is
appended. -/
theorem remove_first_underflow_scenarioD :
    Labware.init "T" 2 3 0 100 .none = .ok scenarioA ∧
      scenarioA.remove ["A01"] (.scalar 5) (some "drain") =
        .err (.volumeUnderflowError (some "drain") "A01")
          { scenarioA with volumesArr := [[-5, 0, 0], [0, 0, 0]] } := by
  constructor
  · rfl
  · have h := Labware.remove_first_underflow scenarioA ["A01"] (.scalar 5) (some "drain")
      [5] 0 "A01" 5 rfl (by decide) (by decide) (by decide) (by decide) (by decide)
      (by decide)
    rw [h]
    decide

/-- C8: for a valid construction, the positions dictionary assigns the
well at coordinate (r, c) the column-major 1-based ordinal
`1 + c * rows + r`, and no two distinct wells share an ordinal. -/
theorem Labware.positions_spec (name : String) (rows columns : Nat) (minV maxV : ℤ)
    (iv : InitialVolumes) (lw : Labware)
    (h1 : 1 ≤ rows) (h26 : rows ≤ 26) (hc : 1 ≤ columns)
    (hinit : Labware.init name rows columns minV maxV iv = .ok lw) :
    (∀ r c, r < rows → c < columns →
      List.lookup (wellId (rowLetter r) (c + 1)) lw.positionsDict =
        some (1 + c * rows + r)) ∧
    (∀ w1 w2 p, List.lookup w1 lw.positionsDict = some p →
      List.lookup w2 lw.positionsDict = some p → w1 = w2) := by
  obtain ⟨heq, -⟩ := init_ok hinit
  have hmin : min rows 26 = rows := by omega
  have hkey : ∀ r1 c1 r2 c2, r1 < rows → c1 < columns → r2 < rows → c2 < columns →
      wellId (rowLetter r1) (c1 + 1) = wellId (rowLetter r2) (c2 + 1) →
      r1 = r2 ∧ c1 = c2 := by
    intro r1 c1 r2 c2 hr1 hc1 hr2 hc2 he
    obtain ⟨ha, hb⟩ := wellId_injective (by omega) (by omega) he
    exact ⟨ha, by omega⟩
  constructor
  · intro r c hr hcc
    rw [heq, assemble_positionsDict, hmin]
    exact lookup_compL rows columns _ _ hkey hr hcc
  · intro w1 w2 p hl1 hl2
    rw [heq, assemble_positionsDict, hmin] at hl1 hl2
    obtain ⟨r1, c1, hr1, hc1, rfl, hv1⟩ := lookup_compL_inv hl1
    obtain ⟨r2, c2, hr2, hc2, rfl, hv2⟩ := lookup_compL_inv hl2
    have he : c1 * rows + r1 = c2 * rows + r2 := by omega
    have hrr : r1 = r2 := by
      have e1 : (c1 * rows + r1) % rows = r1 := by
        rw [Nat.mul_comm, Nat.mul_add_mod, Nat.mod_eq_of_lt hr1]
      have e2 : (c2 * rows + r2) % rows = r2 := by
        rw [Nat.mul_comm, Nat.mul_add_mod, Nat.mod_eq_of_lt hr2]
      rw [← e1, ← e2, he]
    have hcc2 : c1 = c2 := by
      have : c1 * rows = c2 * rows := by omega
      exact Nat.eq_of_mul_eq_mul_right (by omega) this
    rw [hrr, hcc2]

/-- C8 witness: on Scenario A's 2 x 3 labware, well `B02` (coordinate
(1, 1)) has the column-major ordinal 1 + 1 * 2 + 1 = 4. -/
theorem positions_spec_scenarioA :
    Labware.init "T" 2 3 0 100 .none = .ok scenarioA ∧
      List.lookup "B02" scenarioA.positionsDict = some 4 := by
  refine ⟨rfl, ?_⟩
  have h := (Labware.positions_spec "T" 2 3 0 100 .none scenarioA (by omega) (by omega)
    (by omega) rfl).1 1 1 (by omega) (by omega)
  have hb : wellId (rowLetter 1) (1 + 1) = "B02" := by decide
  rw [hb] at h
  simpa using h

/-! A heap model for numpy-array and dict object identity

The functional model above identifies a numpy array with its value, which
is exact for everything except the aliasing behaviour of the read
accessors.  Here the mutable objects live in an explicit store and the
`Labware` attributes are references into it, so that "returns a copy"
and "returns the internal object" become different statements. -/

/-- A reference to a heap-allocated object. -/
abbrev Ref := Nat

/-- The mutable objects of the process: volume grids (numpy float
arrays), the well-id string array, and the two dictionaries. -/
structure Heap where
  grids : List Grid
  strArrs : List (List (List String))
  idxDicts : List (List (String × Nat × Nat))
  posDicts : List (List (String × Nat))
deriving DecidableEq

def Heap.empty : Heap := ⟨[], [], [], []⟩

def Heap.allocGrid (h : Heap) (g : Grid) : Heap × Ref :=
  ({ h with grids := h.grids ++ [g] }, h.grids.length)

def Heap.getGrid (h : Heap) (r : Ref) : Grid := h.grids.getD r []

def Heap.setGrid (h : Heap) (r : Ref) (g : Grid) : Heap :=
  { h with grids := h.grids.set r g }

def Heap.allocStrArr (h : Heap) (a : List (List String)) : Heap × Ref :=
  ({ h with strArrs := h.strArrs ++ [a] }, h.strArrs.length)

def Heap.getStrArr (h : Heap) (r : Ref) : List (List String) := h.strArrs.getD r []

def Heap.allocIdxDict (h : Heap) (d : List (String × Nat × Nat)) : Heap × Ref :=
  ({ h with idxDicts := h.idxDicts ++ [d] }, h.idxDicts.length)

def Heap.getIdxDict (h : Heap) (r : Ref) : List (String × Nat × Nat) := h.idxDicts.getD r []

def Heap.setIdxDict (h : Heap) (r : Ref) (d : List (String × Nat × Nat)) : Heap :=
  { h with idxDicts := h.idxDicts.set r d }

def Heap.allocPosDict (h : Heap) (d : List (String × Nat)) : Heap × Ref :=
  ({ h with posDicts := h.posDicts ++ [d] }, h.posDicts.length)

def Heap.getPosDict (h : Heap) (r : Ref) : List (String × Nat) := h.posDicts.getD r []

/-- Models `d[k] = v` on a Python dict: overwrite in place, appending
when the key is new. -/
def dictSet {α : Type} (d : List (String × α)) (k : String) (v : α) : List (String × α) :=
  if d.any (fun p => p.1 == k) then d.map fun p => if p.1 == k then (k, v) else p
  else d ++ [(k, v)]

/-- The `Labware` object with explicit references for every attribute
that is a mutable heap object. -/
structure LabwareH where
  name : String
  row_ids : List Char
  column_ids : List Nat
  min_volume : ℤ
  max_volume : ℤ
  wellsRef : Ref
  indicesRef : Ref
  positionsRef : Ref
  volumesRef : Ref
  historyRefs : List Ref
  labelsArr : List (Option String)
deriving DecidableEq

/-- Model of `Labware.__init__` on the heap: the same guard chain, then the
attribute objects are allocated — the well-id array, the two dicts, the
ledger (`initial_volumes.copy()`), and the seeded history entry
(`self.current`, a second, distinct copy). -/
def LabwareH.init (h : Heap) (name : String) (rows columns : Nat)
    (min_volume max_volume : ℤ) (initial_volumes : InitialVolumes) :
    Except LHError (Heap × LabwareH) :=
  match arrayTruthiness initial_volumes with
  | .error e => .error e
  | .ok t =>
    let iv1 := explodeVolumes rows columns initial_volumes t
    if gridShapeIs iv1 rows columns then
      let lwv := Labware.assemble name rows columns min_volume max_volume iv1
      let (h, wellsRef) := h.allocStrArr lwv.wellsArr
      let (h, indicesRef) := h.allocIdxDict lwv.indicesDict
      let (h, positionsRef) := h.allocPosDict lwv.positionsDict
      let (h, volumesRef) := h.allocGrid iv1
      let (h, snapRef) := h.allocGrid iv1
      .ok (h, { name := name, row_ids := lwv.row_ids, column_ids := lwv.column_ids,
                min_volume := min_volume, max_volume := max_volume,
                wellsRef := wellsRef, indicesRef := indicesRef,
                positionsRef := positionsRef, volumesRef := volumesRef,
                historyRefs := [snapRef], labelsArr := [some "initial"] })
    else .error (.assertionError "")

/-- The `volumes` property: `self._volumes.copy()` — a freshly allocated
array holding the current ledger. -/
def LabwareH.volumesProp (h : Heap) (lw : LabwareH) : Heap × Ref :=
  h.allocGrid (h.getGrid lw.volumesRef)

/-- The `history` property: `list(zip(self._labels, self._history))` — a
fresh list of pairs whose snapshot arrays are the stored objects
themselves. -/
def LabwareH.historyProp (lw : LabwareH) : List (Option String × Ref) :=
  lw.labelsArr.zip lw.historyRefs

/-- The `wells` property returns the internal array object itself. -/
def LabwareH.wellsProp (lw : LabwareH) : Ref := lw.wellsRef

/-- The `indices` property returns the internal dict object itself. -/
def LabwareH.indicesProp (lw : LabwareH) : Ref := lw.indicesRef

/-- The `positions` property returns the internal dict object itself. -/
def LabwareH.positionsProp (lw : LabwareH) : Ref := lw.positionsRef

/-- Model of `Labware.add` on the heap: the loop reads the dict through the
`indices` property each iteration, mutates the ledger array in place, and
on success appends a fresh snapshot (`self.current`) to the history. -/
def LabwareH.add (h : Heap) (lw : LabwareH) (wells : List String) (volumes : VolumesArg)
    (label : Option String) : (Heap × LabwareH) × Option LHError :=
  let vols := normVolumes wells.length volumes
  if vols.length = wells.length then
    if ∀ v ∈ vols, 0 ≤ v then
      match applyAdds (h.getIdxDict lw.indicesRef) lw.max_volume label
          (h.getGrid lw.volumesRef) (wells.zip vols) with
      | .error (e, g1) => ((h.setGrid lw.volumesRef g1, lw), some e)
      | .ok g1 =>
        let h1 := h.setGrid lw.volumesRef g1
        let (h2, snapRef) := h1.allocGrid g1
        ((h2, { lw with historyRefs := lw.historyRefs ++ [snapRef],
                        labelsArr := lw.labelsArr ++ [label] }), none)
    else ((h, lw), some (.assertionError "Volumes must be positive or zero."))
  else ((h, lw), some (.assertionError "Number of volumes must number of wells"))

/-- Model of `Labware.remove` on the heap, symmetric to `add`. -/
def LabwareH.remove (h : Heap) (lw : LabwareH) (wells : List String) (volumes : VolumesArg)
    (label : Option String) : (Heap × LabwareH) × Option LHError :=
  let vols := normVolumes wells.length volumes
  if vols.length = wells.length then
    if ∀ v ∈ vols, 0 ≤ v then
      match applyRemoves (h.getIdxDict lw.indicesRef) lw.min_volume label
          (h.getGrid lw.volumesRef) (wells.zip vols) with
      | .error (e, g1) => ((h.setGrid lw.volumesRef g1, lw), some e)
      | .ok g1 =>
        let h1 := h.setGrid lw.volumesRef g1
        let (h2, snapRef) := h1.allocGrid g1
        ((h2, { lw with historyRefs := lw.historyRefs ++ [snapRef],
                        labelsArr := lw.labelsArr ++ [label] }), none)
    else ((h, lw), some (.assertionError "Volumes must be positive or zero."))
  else ((h, lw), some (.assertionError "Number of volumes must number of wells"))

/-- The observable outcome of a heap `add`: the raised error (if any) and
the ledger contents afterwards. -/
def addOutcome (h : Heap) (lw : LabwareH) (wells : List String) (vargs : VolumesArg)
    (label : Option String) : Option LHError × Grid :=
  let res := LabwareH.add h lw wells vargs label
  (res.2, res.1.1.getGrid res.1.2.volumesRef)

theorem getGrid_allocGrid_self (h : Heap) (g : Grid) :
    (h.allocGrid g).1.getGrid (h.allocGrid g).2 = g := by
  unfold Heap.allocGrid Heap.getGrid
  simp [List.getD_eq_getElem?_getD, List.getElem?_append_right]

theorem getGrid_allocGrid_lt (h : Heap) (g : Grid) (r : Ref) (hr : r < h.grids.length) :
    (h.allocGrid g).1.getGrid r = h.getGrid r := by
  unfold Heap.allocGrid Heap.getGrid
  simp [List.getD_eq_getElem?_getD, List.getElem?_append_left hr]

theorem getGrid_setGrid_self (h : Heap) (r : Ref) (g : Grid) (hr : r < h.grids.length) :
    (h.setGrid r g).getGrid r = g := by
  unfold Heap.setGrid Heap.getGrid
  simp only
  exact getD_set_self h.grids r g [] hr

theorem getGrid_setGrid_ne (h : Heap) (r r' : Ref) (g : Grid) (hne : r ≠ r') :
    (h.setGrid r g).getGrid r' = h.getGrid r' := by
  unfold Heap.setGrid Heap.getGrid
  simp only
  exact getD_set_ne h.grids g [] hne

theorem setGrid_grids_length (h : Heap) (r : Ref) (g : Grid) :
    (h.setGrid r g).grids.length = h.grids.length := by
  simp [Heap.setGrid]

/-- The observable `add` outcome depends on the heap only through the
ledger array and the indices dict — not through any other object. -/
theorem addOutcome_congr (h1 h2 : Heap) (lw : LabwareH) (wells : List String)
    (vargs : VolumesArg) (label : Option String)
    (hvr1 : lw.volumesRef < h1.grids.length) (hvr2 : lw.volumesRef < h2.grids.length)
    (hidx : h1.getIdxDict lw.indicesRef = h2.getIdxDict lw.indicesRef)
    (hg : h1.getGrid lw.volumesRef = h2.getGrid lw.volumesRef) :
    addOutcome h1 lw wells vargs label = addOutcome h2 lw wells vargs label := by
  simp only [addOutcome, LabwareH.add]
  rw [hidx, hg]
  by_cases hlen : (normVolumes wells.length vargs).length = wells.length
  · simp only [if_pos hlen]
    by_cases hnn : ∀ v ∈ normVolumes wells.length vargs, 0 ≤ v
    · simp only [if_pos hnn]
      cases happ : applyAdds (h2.getIdxDict lw.indicesRef) lw.max_volume label
          (h2.getGrid lw.volumesRef) (wells.zip (normVolumes wells.length vargs)) with
      | error p =>
        obtain ⟨e, g1⟩ := p
        simp only [happ]
        rw [getGrid_setGrid_self h1 _ _ hvr1, getGrid_setGrid_self h2 _ _ hvr2]
      | ok g1 =>
        simp only [happ]
        rw [getGrid_allocGrid_lt _ _ _ (by rw [setGrid_grids_length]; exact hvr1),
          getGrid_allocGrid_lt _ _ _ (by rw [setGrid_grids_length]; exact hvr2),
          getGrid_setGrid_self h1 _ _ hvr1, getGrid_setGrid_self h2 _ _ hvr2]
    · simp only [if_neg hnn]
      rw [hg]
  · simp only [if_neg hlen]
    rw [hg]

/-- Construction allocates the ledger and the seeded history snapshot as
two distinct objects, with the ledger reference in bounds. -/
theorem initH_refs {hIn h0 : Heap} {lw0 : LabwareH} {name : String} {rows columns : Nat}
    {minV maxV : ℤ} {iv : InitialVolumes}
    (h : LabwareH.init hIn name rows columns minV maxV iv = .ok (h0, lw0)) :
    lw0.volumesRef < h0.grids.length ∧ ∀ r ∈ lw0.historyRefs, r ≠ lw0.volumesRef := by
  unfold LabwareH.init at h
  cases ht : arrayTruthiness iv with
  | error e => rw [ht] at h; cases h
  | ok t =>
    rw [ht] at h
    simp only at h
    by_cases hsh : gridShapeIs (explodeVolumes rows columns iv t) rows columns
    · rw [if_pos hsh] at h
      cases h
      constructor
      · simp [Heap.allocStrArr, Heap.allocIdxDict, Heap.allocPosDict, Heap.allocGrid]
      · intro r hr
        simp only [Heap.allocStrArr, Heap.allocIdxDict, Heap.allocPosDict, Heap.allocGrid,
          List.mem_singleton] at hr ⊢
        simp only [hr]
        simp
    · rw [if_neg hsh] at h
      cases h

/-- C9 counterexample: on a fresh Scenario A labware, the snapshot handed
out by the `history` property is the stored history array itself, not an
independent copy: writing 999 into it changes what the next `history`
read returns for entry 0. -/
theorem history_snapshot_aliasing :
    ∃ (h0 : Heap) (lw0 : LabwareH) (r0 : Ref),
      LabwareH.init Heap.empty "T" 2 3 0 100 .none = .ok (h0, lw0) ∧
      lw0.historyProp = [(some "initial", r0)] ∧
      h0.getGrid ((lw0.historyProp.getD 0 (none, 0)).2) = [[0, 0, 0], [0, 0, 0]] ∧
      (h0.setGrid r0 (setCell (h0.getGrid r0) (0, 0) 999)).getGrid
          ((lw0.historyProp.getD 0 (none, 0)).2) = [[999, 0, 0], [0, 0, 0]] := by
  exact ⟨_, _, _, rfl, rfl, by decide, by decide⟩

/-- C9 amended: the `volumes` property does return a fresh defensive copy
— mutating it never changes the internal ledger, and subsequent `add`
outcomes are unaffected — and history snapshots never alias the ledger
itself (their references are distinct from the ledger's, as construction
guarantees), so mutating a returned snapshot also leaves the ledger and
subsequent operations intact.  What fails is only the independence of the
`history` snapshots themselves, refuted above. -/
theorem accessor_copy_semantics :
    (∀ (h : Heap) (lw : LabwareH), lw.volumesRef < h.grids.length →
      (LabwareH.volumesProp h lw).2 ≠ lw.volumesRef ∧
        (LabwareH.volumesProp h lw).1.getGrid (LabwareH.volumesProp h lw).2 =
          h.getGrid lw.volumesRef ∧
        (∀ g', ((LabwareH.volumesProp h lw).1.setGrid (LabwareH.volumesProp h lw).2
            g').getGrid lw.volumesRef = h.getGrid lw.volumesRef) ∧
        (∀ g' wells vargs label,
          addOutcome ((LabwareH.volumesProp h lw).1.setGrid (LabwareH.volumesProp h lw).2 g')
              lw wells vargs label =
            addOutcome h lw wells vargs label)) ∧
    (∀ (h : Heap) (lw : LabwareH) (r : Ref), r ∈ lw.historyRefs → r ≠ lw.volumesRef →
      ∀ g', (h.setGrid r g').getGrid lw.volumesRef = h.getGrid lw.volumesRef) ∧
    (∀ (hIn h0 : Heap) (lw0 : LabwareH) (name : String) (rows columns : Nat)
        (minV maxV : ℤ) (iv : InitialVolumes),
      LabwareH.init hIn name rows columns minV maxV iv = .ok (h0, lw0) →
      ∀ r ∈ lw0.historyRefs, r ≠ lw0.volumesRef) := by
  refine ⟨?_, ?_, ?_⟩
  · intro h lw hvr
    have hfresh : (LabwareH.volumesProp h lw).2 = h.grids.length := rfl
    have hne : (LabwareH.volumesProp h lw).2 ≠ lw.volumesRef := by
      rw [hfresh]; exact ne_of_gt hvr
    refine ⟨hne, getGrid_allocGrid_self h _, ?_, ?_⟩
    · intro g'
      rw [getGrid_setGrid_ne _ _ _ _ hne]
      exact getGrid_allocGrid_lt h _ _ hvr
    · intro g' wells vargs label
      apply addOutcome_congr
      · rw [setGrid_grids_length]
        show lw.volumesRef < (h.allocGrid (h.getGrid lw.volumesRef)).1.grids.length
        have hlen1 : (h.allocGrid (h.getGrid lw.volumesRef)).1.grids.length =
            h.grids.length + 1 := by
          simp [Heap.allocGrid]
        rw [hlen1]
        exact Nat.lt_succ_of_lt hvr
      · exact hvr
      · rfl
      · rw [getGrid_setGrid_ne _ _ _ _ hne]
        exact getGrid_allocGrid_lt h _ _ hvr
  · intro h lw r hmem hne g'
    exact getGrid_setGrid_ne h r lw.volumesRef g' hne
  · intro hIn h0 lw0 name rows columns minV maxV iv h
    exact (initH_refs h).2

/-- C9 amended witness: instantiated on the freshly constructed Scenario A
labware — the `volumes` copy is a new object, mutating it to an arbitrary
grid leaves the next `add` outcome unchanged, and the history snapshot
reference differs from the ledger reference. -/
theorem accessor_copy_semantics_witness :
    ∃ (h0 : Heap) (lw0 : LabwareH),
      LabwareH.init Heap.empty "T" 2 3 0 100 .none = .ok (h0, lw0) ∧
      (LabwareH.volumesProp h0 lw0).2 ≠ lw0.volumesRef ∧
      addOutcome ((LabwareH.volumesProp h0 lw0).1.setGrid (LabwareH.volumesProp h0 lw0).2
          [[777, 777, 777], [777, 777, 777]]) lw0 ["A01"] (.scalar 10) none =
        addOutcome h0 lw0 ["A01"] (.scalar 10) none ∧
      (∀ r ∈ lw0.historyRefs, r ≠ lw0.volumesRef) := by
    refine ⟨_, _, rfl, ?_, ?_, ?_⟩
    · exact ((accessor_copy_semantics.1 _ _ (by decide)).1)
    · exact ((accessor_copy_semantics.1 _ _ (by decide)).2.2.2 [[777, 777, 777],
        [777, 777, 777]] ["A01"] (.scalar 10) none)
    · exact accessor_copy_semantics.2.2 Heap.empty _ _ "T" 2 3 0 100 .none rfl

/-- C10: the `wells`, `indices` and `positions` properties return the
internal objects themselves, not copies; concretely, reassigning
`indices['A01']` to the coordinate (0, 1) through the object returned by
the property redirects every subsequent `add` and `remove` on that
instance: an `add(['A01'], 10)` lands in cell (0, 1) and leaves (0, 0)
untouched, and the following `remove(['A01'], 10)` drains cell (0, 1). -/
theorem raw_accessor_aliasing :
    (∀ lw : LabwareH, lw.wellsProp = lw.wellsRef ∧ lw.indicesProp = lw.indicesRef ∧
      lw.positionsProp = lw.positionsRef) ∧
    (∃ (h0 : Heap) (lw0 : LabwareH),
      LabwareH.init Heap.empty "T" 2 3 0 100 .none = .ok (h0, lw0) ∧
      (let h1 := h0.setIdxDict lw0.indicesProp
         (dictSet (h0.getIdxDict lw0.indicesProp) "A01" (0, 1))
       let res := LabwareH.add h1 lw0 ["A01"] (.scalar 10) none
       res.2 = none ∧
       getCell (res.1.1.getGrid res.1.2.volumesRef) (0, 1) = 10 ∧
       getCell (res.1.1.getGrid res.1.2.volumesRef) (0, 0) = 0 ∧
       (let res2 := LabwareH.remove res.1.1 res.1.2 ["A01"] (.scalar 10) none
        res2.2 = none ∧ getCell (res2.1.1.getGrid res2.1.2.volumesRef) (0, 1) = 0))) := by
  constructor
  · intro lw
    exact ⟨rfl, rfl, rfl⟩
  · exact ⟨_, _, rfl, by decide⟩
